import Mathlib

/-! Verification development for the SLATE core fragment: the HostTask tile
decomposition of the triangular matrix multiply (`src/slate_internal_trmm.cc`)
and the distributed reciprocal-condition-number estimator `gecondest`.

Tiles are modelled as elements of an arbitrary (non-commutative) ring `R`:
a tile of a matrix over scalars is itself a matrix, and the per-tile BLAS
kernels (`trmm`, `gemm` on tiles, from `slate_Tile_blas.hh`, external
collaborators of this core) act on tiles by ring multiplication and addition.
A tiled matrix is its tile-grid shape together with a total assignment of
tile indices to tile values.
-/

namespace Slate

/-- Which side the triangular operand multiplies from (BLAS convention). -/
inductive Side where
  | left
  | right
deriving DecidableEq

/-- Unit or non-unit diagonal of a triangular operand (BLAS convention). -/
inductive Diag where
  | unit
  | nonUnit
deriving DecidableEq

/-- A tiled matrix: `mt × nt` grid of tiles, each tile an element of `R`.
The tile map is total; only indices inside the grid are meaningful. -/
structure TiledMatrix (R : Type) where
  mt : Nat
  nt : Nat
  tile : Nat → Nat → R

variable {R : Type}

/-- In-place write of one tile, as a functional update. -/
def setTile (M : TiledMatrix R) (i j : Nat) (v : R) : TiledMatrix R :=
  ⟨M.mt, M.nt, fun i' j' => if i' = i ∧ j' = j then v else M.tile i' j'⟩

@[simp] theorem setTile_mt (M : TiledMatrix R) (i j : Nat) (v : R) :
    (setTile M i j v).mt = M.mt := rfl

@[simp] theorem setTile_nt (M : TiledMatrix R) (i j : Nat) (v : R) :
    (setTile M i j v).nt = M.nt := rfl

theorem setTile_tile (M : TiledMatrix R) (i j : Nat) (v : R) (i' j' : Nat) :
    (setTile M i j v).tile i' j' = if i' = i ∧ j' = j then v else M.tile i' j' := rfl

/-- The external per-tile triangular-multiply kernel `Tile_blas::trmm`:
`B := alpha * op(A) * B` (left) or `B := alpha * B * op(A)` (right).
The triangular structure and the `diag` interpretation are folded into the
abstract tile value `a`, which stands for the effective operator `op(A)`. -/
def tileTrmm [Ring R] (side : Side) (diag : Diag) (alpha a b : R) : R :=
  match side, diag with
  | Side.left, _ => alpha * (a * b)
  | Side.right, _ => alpha * (b * a)

/-- The external per-tile kernel `Tile_blas::gemm`:
`C := alpha * A * B + beta * C`. -/
def tileGemm [Ring R] (alpha a b beta c : R) : R :=
  alpha * (a * b) + beta * c

/-- One column pass writing row `r`: for each `n` in `ns`, in order,
`M(r, n) := newVal n M` on the current matrix `M`.  Shared shape of the two
task loops of the HostTask `trmm` (executed here in program order). -/
def colPass (r : Nat) (newVal : Nat → TiledMatrix R → R) (ns : List Nat)
    (M : TiledMatrix R) : TiledMatrix R :=
  ns.foldl (fun Mc n => setTile Mc r n (newVal n Mc)) M

theorem colPass_mt (r : Nat) (newVal : Nat → TiledMatrix R → R) (ns : List Nat)
    (M : TiledMatrix R) : (colPass r newVal ns M).mt = M.mt := by
  induction ns generalizing M with
  | nil => rfl
  | cons n ns ih => simpa [colPass] using ih (setTile M r n (newVal n M))

theorem colPass_nt (r : Nat) (newVal : Nat → TiledMatrix R → R) (ns : List Nat)
    (M : TiledMatrix R) : (colPass r newVal ns M).nt = M.nt := by
  induction ns generalizing M with
  | nil => rfl
  | cons n ns ih => simpa [colPass] using ih (setTile M r n (newVal n M))

/-- Characterization of a column pass: provided the per-column new value is
insensitive to writes of row `r` at other columns (`hstab`), the pass maps
every written tile to its new value computed from the matrix on entry, and
leaves all other tiles unchanged. -/
theorem colPass_tile (r : Nat) (newVal : Nat → TiledMatrix R → R) (ns : List Nat)
    (hnd : ns.Nodup)
    (hstab : ∀ n M j v, j ≠ n → newVal n (setTile M r j v) = newVal n M)
    (M : TiledMatrix R) (i j : Nat) :
    (colPass r newVal ns M).tile i j
      = if i = r ∧ j ∈ ns then newVal j M else M.tile i j := by
  induction ns generalizing M with
  | nil => simp [colPass]
  | cons n ns ih =>
    have hnd' : ns.Nodup := hnd.of_cons
    have hn : n ∉ ns := by
      intro hmem
      exact (List.nodup_cons.mp hnd).1 hmem
    have step : colPass r newVal (n :: ns) M
        = colPass r newVal ns (setTile M r n (newVal n M)) := rfl
    rw [step, ih hnd']
    by_cases hi : i = r
    · by_cases hj : j ∈ ns
      · have hjn : j ≠ n := fun h => hn (h ▸ hj)
        simp [hi, hj, hstab j M n (newVal n M) (fun h => hjn h.symm),
          List.mem_cons, setTile_tile]
      · by_cases hjn : j = n
        · subst hjn
          simp [hi, setTile_tile]
          exact fun hmem => absurd hmem hn
        · simp [hi, hj, hjn, setTile_tile]
    · simp [hi, setTile_tile]

/-- First task loop of the HostTask `trmm`: for every column tile `n` of `B`,
`B(B.mt-1, n) := tileTrmm side diag alpha A(0, A.nt-1) B(B.mt-1, n)`.
Tasks are independent across `n`; they are executed here in program order. -/
def diagLoop [Ring R] (side : Side) (diag : Diag) (alpha : R)
    (A B : TiledMatrix R) : TiledMatrix R :=
  colPass (B.mt - 1)
    (fun n M => tileTrmm side diag alpha (A.tile 0 (A.nt - 1)) (M.tile (B.mt - 1) n))
    (List.range B.nt) B

/-- One `k`-iteration of the second task loop of the HostTask `trmm`: for
every column tile `n`, `B(B.mt-1, n) := tileGemm alpha A(0,k) B(k,n) 1 B(B.mt-1, n)`. -/
def gemmStep [Ring R] (alpha : R) (A B : TiledMatrix R)
    (Mc : TiledMatrix R) (k : Nat) : TiledMatrix R :=
  colPass (B.mt - 1)
    (fun n Mk => tileGemm alpha (A.tile 0 k) (Mk.tile k n) 1 (Mk.tile (B.mt - 1) n))
    (List.range B.nt) Mc

/-- Second task loop of the HostTask `trmm`: `gemmStep` for `k` from
`A.nt-2` down to `0`. -/
def gemmLoop [Ring R] (alpha : R) (A B : TiledMatrix R)
    (M : TiledMatrix R) : TiledMatrix R :=
  ((List.range (A.nt - 1)).reverse).foldl (gemmStep alpha A B) M

/-- The HostTask implementation of `internal::trmm`
(`trmm(TargetType<Target::HostTask>, side, diag, alpha, A, B, priority)`):
asserts `A.mt == 1` and `A.nt == B.mt`, then runs the diagonal-block task
loop followed by the accumulation task loop; the `priority` argument is
received and never used in the computation.  `none` models the fatal
assertion failure. -/
def trmmHostTask [Ring R] (side : Side) (diag : Diag) (alpha : R)
    (A B : TiledMatrix R) (priority : Int) : Option (TiledMatrix R) :=
  let _ := priority
  if A.mt = 1 ∧ A.nt = B.mt then
    some (gemmLoop alpha A B (diagLoop side diag alpha A B))
  else
    none

theorem diagLoop_tile [Ring R] (side : Side) (diag : Diag) (alpha : R)
    (A B : TiledMatrix R) (i j : Nat) :
    (diagLoop side diag alpha A B).tile i j
      = if i = B.mt - 1 ∧ j < B.nt
        then tileTrmm side diag alpha (A.tile 0 (A.nt - 1)) (B.tile (B.mt - 1) j)
        else B.tile i j := by
  have h := colPass_tile (B.mt - 1)
    (fun n M => tileTrmm side diag alpha (A.tile 0 (A.nt - 1)) (M.tile (B.mt - 1) n))
    (List.range B.nt) (List.nodup_range B.nt)
    (fun n M j' v hj => by simp [setTile_tile, Ne.symm hj]) B i j
  simpa [diagLoop, List.mem_range] using h

theorem gemmStep_tile [Ring R] (alpha : R) (A B : TiledMatrix R)
    (Mc : TiledMatrix R) (k : Nat) (i j : Nat) :
    (gemmStep alpha A B Mc k).tile i j
      = if i = B.mt - 1 ∧ j < B.nt
        then tileGemm alpha (A.tile 0 k) (Mc.tile k j) 1 (Mc.tile (B.mt - 1) j)
        else Mc.tile i j := by
  have h := colPass_tile (B.mt - 1)
    (fun n Mk => tileGemm alpha (A.tile 0 k) (Mk.tile k n) 1 (Mk.tile (B.mt - 1) n))
    (List.range B.nt) (List.nodup_range B.nt)
    (fun n Mk j' v hj => by simp [setTile_tile, Ne.symm hj]) Mc i j
  simpa [gemmStep, List.mem_range] using h

theorem gemmFold_frame [Ring R] (alpha : R) (A B : TiledMatrix R)
    (ks : List Nat) (M : TiledMatrix R) (i j : Nat) (hi : i ≠ B.mt - 1) :
    (ks.foldl (gemmStep alpha A B) M).tile i j = M.tile i j := by
  induction ks generalizing M with
  | nil => rfl
  | cons k ks ih =>
    rw [List.foldl_cons, ih]
    simp [gemmStep_tile, hi]

/-- Value of the accumulation fold over a list of `k`-indices all below the
last tile row: each pass adds `alpha * (A(0,k) * M(k,n))` into `M(B.mt-1,n)`,
and the `k` rows themselves are never written. -/
theorem gemmFold_last_row [Ring R] (alpha : R) (A B : TiledMatrix R)
    (m : Nat) (M : TiledMatrix R) (n : Nat) (hn : n < B.nt)
    (hm : m ≤ B.mt - 1) :
    (((List.range m).reverse).foldl (gemmStep alpha A B) M).tile (B.mt - 1) n
      = (Finset.range m).sum (fun k => alpha * (A.tile 0 k * M.tile k n))
        + M.tile (B.mt - 1) n := by
  induction m generalizing M with
  | zero => simp
  | succ m ih =>
    have hrev : (List.range (m + 1)).reverse = m :: (List.range m).reverse := by
      simp [List.range_succ]
    have hm' : m ≤ B.mt - 1 := Nat.le_of_succ_le hm
    have hmr : m ≠ B.mt - 1 := Nat.ne_of_lt (Nat.lt_of_succ_le hm)
    rw [hrev, List.foldl_cons, ih _ hm']
    have hstep := gemmStep_tile alpha A B M m
    have hkrow : ∀ k, k < m →
        (gemmStep alpha A B M m).tile k n = M.tile k n := by
      intro k hk
      have hkr : k ≠ B.mt - 1 :=
        Nat.ne_of_lt (Nat.lt_of_lt_of_le hk hm')
      simp [gemmStep_tile, hkr]
    have hlast : (gemmStep alpha A B M m).tile (B.mt - 1) n
        = alpha * (A.tile 0 m * M.tile m n) + M.tile (B.mt - 1) n := by
      simp [gemmStep_tile, hn, tileGemm]
    rw [Finset.sum_congr rfl (fun k hk => by
          rw [hkrow k (Finset.mem_range.mp hk)]),
        hlast, Finset.sum_range_succ]
    rw [add_assoc]

/-- C1 helper: closed form for every tile of the HostTask `trmm` result. -/
theorem trmmHostTask_eq_some [Ring R] (side : Side) (diag : Diag) (alpha : R)
    (A B : TiledMatrix R) (p : Int) (h1 : A.mt = 1) (h2 : A.nt = B.mt) :
    trmmHostTask side diag alpha A B p
      = some (gemmLoop alpha A B (diagLoop side diag alpha A B)) := by
  simp [trmmHostTask, h1, h2]

/-- Concrete 1×2-tiled triangular operand over `ℚ` for witnesses:
tiles `A(0,0) = 1`, `A(0,1) = 3`. -/
def wA : TiledMatrix ℚ := ⟨1, 2, fun i j => (1 : ℚ) + i + 2 * j⟩

/-- Concrete 2×1-tiled right-hand side over `ℚ` for witnesses:
tiles `B(0,0) = 2`, `B(1,0) = 5`. -/
def wB : TiledMatrix ℚ := ⟨2, 1, fun i j => (2 : ℚ) + 3 * i + j⟩

/-- C1: for every triangular `A` tiled 1×K and `B` tiled K×N of matching
shapes, the HostTask `trmm` leaves tile `B(K-1, n)`, for every column tile
`n`, equal to `alpha·A(0,K-1)·B_orig(K-1,n) + alpha·Σ_{k=0}^{K-2}
A(0,k)·B_orig(k,n)` — the last tile row of the reference sequential
triangular multiply `B := alpha·op(A)·B`. -/
theorem trmm_hostTask_last_row [Ring R] (diag : Diag) (alpha : R)
    (A B : TiledMatrix R) (p : Int)
    (h1 : A.mt = 1) (h2 : A.nt = B.mt) (n : Nat) (hn : n < B.nt) :
    ∃ C, trmmHostTask Side.left diag alpha A B p = some C ∧
      C.tile (B.mt - 1) n
        = alpha * (A.tile 0 (A.nt - 1) * B.tile (B.mt - 1) n)
          + (Finset.range (A.nt - 1)).sum
              (fun k => alpha * (A.tile 0 k * B.tile k n)) := by
  refine ⟨gemmLoop alpha A B (diagLoop Side.left diag alpha A B),
    trmmHostTask_eq_some Side.left diag alpha A B p h1 h2, ?_⟩
  have hmle : A.nt - 1 ≤ B.mt - 1 := by rw [h2]
  have hval := gemmFold_last_row alpha A B (A.nt - 1)
    (diagLoop Side.left diag alpha A B) n hn hmle
  unfold gemmLoop
  rw [hval]
  have hdiag_last : (diagLoop Side.left diag alpha A B).tile (B.mt - 1) n
      = tileTrmm Side.left diag alpha (A.tile 0 (A.nt - 1)) (B.tile (B.mt - 1) n) := by
    simp [diagLoop_tile, hn]
  have hdiag_k : ∀ k ∈ Finset.range (A.nt - 1),
      alpha * (A.tile 0 k * (diagLoop Side.left diag alpha A B).tile k n)
        = alpha * (A.tile 0 k * B.tile k n) := by
    intro k hk
    have hk' : k < A.nt - 1 := Finset.mem_range.mp hk
    have hkr : k ≠ B.mt - 1 := by
      rw [← h2]; exact Nat.ne_of_lt hk'
    simp [diagLoop_tile, hkr]
  rw [Finset.sum_congr rfl hdiag_k, hdiag_last, add_comm]
  rfl

/-- C1 witness: the closed form checked on concrete 1×2 / 2×1 tile grids. -/
theorem trmm_hostTask_last_row_witness :
    wA.mt = 1 ∧ wA.nt = wB.mt ∧ 0 < wB.nt ∧
    (∃ C, trmmHostTask Side.left Diag.nonUnit (1 : ℚ) wA wB 0 = some C ∧
      C.tile (wB.mt - 1) 0
        = 1 * (wA.tile 0 (wA.nt - 1) * wB.tile (wB.mt - 1) 0)
          + (Finset.range (wA.nt - 1)).sum
              (fun k => 1 * (wA.tile 0 k * wB.tile k 0))) :=
  ⟨rfl, rfl, Nat.one_pos,
    trmm_hostTask_last_row Diag.nonUnit 1 wA wB 0 rfl rfl 0 Nat.one_pos⟩

/-- C8: the HostTask `trmm` asserts `A.mt == 1` and `A.nt == B.mt`; it
produces a result exactly when both hold, and violating either is the fatal
assertion failure (modelled as `none`), not a recoverable error. -/
theorem trmm_hostTask_assert [Ring R] (side : Side) (diag : Diag) (alpha : R)
    (A B : TiledMatrix R) (p : Int) :
    trmmHostTask side diag alpha A B p = none ↔ ¬(A.mt = 1 ∧ A.nt = B.mt) := by
  unfold trmmHostTask
  by_cases h : A.mt = 1 ∧ A.nt = B.mt <;> simp [h]

/-- C9: the `priority` argument of the HostTask `trmm` never influences the
computed output: any two priorities give identical results. -/
theorem trmm_hostTask_priority_irrelevant [Ring R] (side : Side) (diag : Diag)
    (alpha : R) (A B : TiledMatrix R) (p1 p2 : Int) :
    trmmHostTask side diag alpha A B p1 = trmmHostTask side diag alpha A B p2 := rfl

/-- C10: the HostTask `trmm` mutates only the last tile row of `B`: every
tile `B(k, n)` with `k < B.mt - 1` is unchanged on exit. -/
theorem trmm_hostTask_frame [Ring R] (side : Side) (diag : Diag) (alpha : R)
    (A B : TiledMatrix R) (p : Int)
    (h1 : A.mt = 1) (h2 : A.nt = B.mt) (k n : Nat) (hk : k < B.mt - 1) :
    ∃ C, trmmHostTask side diag alpha A B p = some C ∧ C.tile k n = B.tile k n := by
  refine ⟨gemmLoop alpha A B (diagLoop side diag alpha A B),
    trmmHostTask_eq_some side diag alpha A B p h1 h2, ?_⟩
  have hkr : k ≠ B.mt - 1 := Nat.ne_of_lt hk
  unfold gemmLoop
  rw [gemmFold_frame alpha A B _ _ k n hkr]
  simp [diagLoop_tile, hkr]

/-- C10 witness: the tile `B(0,0)` of the concrete grids is unchanged. -/
theorem trmm_hostTask_frame_witness :
    wA.mt = 1 ∧ wA.nt = wB.mt ∧ 0 < wB.mt - 1 ∧
    (∃ C, trmmHostTask Side.left Diag.unit (1 : ℚ) wA wB 3 = some C ∧
      C.tile 0 0 = wB.tile 0 0) :=
  ⟨rfl, rfl, Nat.one_pos,
    trmm_hostTask_frame Side.left Diag.unit 1 wA wB 3 rfl rfl 0 0 Nat.one_pos⟩

/-! The distributed condition-number estimator `gecondest`
(the unnamed source file) validates its arguments, performs the
quick returns, then drives `internal::norm1est` — an external collaborator
whose code is not part of this fragment — in a reverse-communication loop,
broadcasting the 4-element state vector `isave` and the request code `kase`
from the process owning tile (0,0) after every estimator call.  Scalars are
modelled over `ℚ`; NaN-ness of the input norm, which `ℚ` cannot carry, is an
explicit boolean alongside the value. -/

/-- The SLATE `Norm` selector (`slate::Norm`). -/
inductive Norm where
  | one
  | two
  | inf
  | fro
  | max
deriving DecidableEq

/-- The precondition failures `gecondest` raises via `slate_error`. -/
inductive GecondErr where
  | invalidNorm
  | invalidAnorm
deriving DecidableEq

/-- Per-process state of the reverse-communication estimation: the probe
vector `X`, scratch vector `V`, sign vector `isgn`, the running estimate
`Ainvnorm`, the request code `kase` and the 4-element state vector `isave`. -/
structure EstState where
  x : List ℚ
  v : List ℚ
  isgn : List Int
  ainvnorm : ℚ
  kase : Int
  isave : List Int
deriving DecidableEq

/-- External collaborators of `gecondest`, as abstract operations: the
estimator step `internal::norm1est` (per process, since only the process
owning tile (0,0) holds authoritative data), the four triangular solves
applied to the probe vector, and the root rank `X.tileRank(0,0)` of the
broadcasts. -/
structure EstCtx where
  est : Nat → EstState → EstState
  applyL : List ℚ → List ℚ
  applyU : List ℚ → List ℚ
  applyUH : List ℚ → List ℚ
  applyLH : List ℚ → List ℚ
  root : Nat

/-- Events of one `gecondest` run, in program order. -/
inductive Event where
  | norm1est
  | bcastIsave
  | bcastKase
  | trsmL
  | trsmU
  | trsmUH
  | trsmLH
deriving DecidableEq

/-- The state `gecondest` builds before the first estimator call:
`Ainvnorm = 0`, `kase = 0`, `isave = {0,0,0,0}`; the fresh `X`, `V`, `isgn`
tiles are materialized but not initialized, so their contents are carried
over from the arbitrary ambient state. -/
def initState (s : EstState) : EstState :=
  ⟨s.x, s.v, s.isgn, 0, 0, [0, 0, 0, 0]⟩

/-- The broadcast pair `MPI_Bcast(&isave[0], 4, ...)` followed by
`MPI_Bcast(&kase, 1, ...)` from the root process: every process adopts the
root's `isave` and `kase`. -/
def bcastPair (ctx : EstCtx) (s : Nat → EstState) : Nat → EstState :=
  fun p => ⟨(s p).x, (s p).v, (s p).isgn, (s p).ainvnorm,
            (s ctx.root).kase, (s ctx.root).isave⟩

/-- Every process calls `internal::norm1est` on its local state. -/
def estAll (ctx : EstCtx) (s : Nat → EstState) : Nat → EstState :=
  fun p => ctx.est p (s p)

/-- One estimator call followed by the two broadcasts — the unit that
precedes every branch on `kase` in `gecondest`. -/
def estRound (ctx : EstCtx) (s : Nat → EstState) : Nat → EstState :=
  bcastPair ctx (estAll ctx s)

/-- The loop body's triangular solves, branching on the process's own
`kase`: `inv(U)·inv(L)` when `kase == kase1`, else `inv(L^H)·inv(U^H)`. -/
def branchStep (kase1 : Int) (ctx : EstCtx) (s : EstState) : EstState :=
  if s.kase = kase1 then
    ⟨ctx.applyU (ctx.applyL s.x), s.v, s.isgn, s.ainvnorm, s.kase, s.isave⟩
  else
    ⟨ctx.applyLH (ctx.applyUH s.x), s.v, s.isgn, s.ainvnorm, s.kase, s.isave⟩

/-- The trace of one loop body's triangular solves. -/
def branchEvents (kase1 : Int) (ctx : EstCtx) (s : Nat → EstState) : List Event :=
  if (s ctx.root).kase = kase1 then [Event.trsmL, Event.trsmU]
  else [Event.trsmUH, Event.trsmLH]

/-- The `while (kase != 0)` loop of `gecondest`, with explicit fuel making
the recursion structural (the estimator caps its own iterations; fuel only
bounds the model).  Returns the final states, the event trace of the loop
and whether the loop in fact reached `kase == 0`. -/
def loopRun (kase1 : Int) (ctx : EstCtx) :
    Nat → (Nat → EstState) → ((Nat → EstState) × List Event × Bool)
  | 0, s => (s, [], (s ctx.root).kase == 0)
  | fuel + 1, s =>
    if (s ctx.root).kase = 0 then (s, [], true)
    else
      let s' := estRound ctx (fun p => branchStep kase1 ctx (s p))
      let r := loopRun kase1 ctx fuel s'
      (r.1,
       branchEvents kase1 ctx s
         ++ (Event.norm1est :: Event.bcastIsave :: Event.bcastKase :: r.2.1),
       r.2.2)

/-- The request code `kase1` as `gecondest` assigns it from the selector. -/
def kase1Of : Norm → Int
  | Norm.one => 1
  | Norm.inf => 2
  | _ => 0

/-- The full `gecondest`: argument validation, quick returns, then the
estimator loop.  Result: the returned rcond (or the precondition error),
whether the loop genuinely terminated within the fuel, and the event trace
of estimator calls, broadcasts and triangular solves. -/
def gecondest (in_norm : Norm) (m : Int) (Anorm : ℚ) (anormNan : Bool)
    (ctx : EstCtx) (fuel : Nat) (s0 : Nat → EstState) :
    Except GecondErr (ℚ × Bool) × List Event :=
  if ¬(in_norm = Norm.one ∨ in_norm = Norm.inf) then
    (Except.error GecondErr.invalidNorm, [])
  else if Anorm < 0 ∨ anormNan = true then
    (Except.error GecondErr.invalidAnorm, [])
  else if m ≤ 1 then
    (Except.ok (1, true), [])
  else if Anorm = 0 then
    (Except.ok (0, true), [])
  else
    let kase1 := kase1Of in_norm
    let s1 := estRound ctx (fun p => initState (s0 p))
    let r := loopRun kase1 ctx fuel s1
    let ainv := (r.1 ctx.root).ainvnorm
    (Except.ok (if ainv ≠ 0 then (1 / ainv) / Anorm else 0, r.2.2),
     Event.norm1est :: Event.bcastIsave :: Event.bcastKase :: r.2.1)

/-- A trace is well-bracketed when every estimator call is immediately
followed by the broadcast of `isave` and then the broadcast of `kase`. -/
def goodTrace : List Event → Bool
  | [] => true
  | Event.norm1est :: rest =>
    decide (rest.take 2 = [Event.bcastIsave, Event.bcastKase]) && goodTrace rest
  | _ :: rest => goodTrace rest

theorem goodTrace_est_chunk (t : List Event) :
    goodTrace (Event.norm1est :: Event.bcastIsave :: Event.bcastKase :: t)
      = goodTrace t := by
  simp [goodTrace]

theorem goodTrace_branch_chunk (kase1 : Int) (ctx : EstCtx)
    (s : Nat → EstState) (t : List Event) :
    goodTrace (branchEvents kase1 ctx s ++ t) = goodTrace t := by
  unfold branchEvents
  by_cases h : (s ctx.root).kase = kase1 <;> simp [h, goodTrace]

theorem goodTrace_loopRun (kase1 : Int) (ctx : EstCtx) (fuel : Nat)
    (s : Nat → EstState) :
    goodTrace (loopRun kase1 ctx fuel s).2.1 = true := by
  induction fuel generalizing s with
  | zero => rfl
  | succ fuel ih =>
    unfold loopRun
    by_cases h : (s ctx.root).kase = 0
    · simp [h, goodTrace]
    · simp only [h, if_false]
      rw [goodTrace_branch_chunk, goodTrace_est_chunk]
      exact ih _

/-- The final estimate of a `gecondest` run on the estimator-loop path: the
`Ainvnorm` held by the root process when the `while (kase != 0)` loop is
left (or the fuel runs out). -/
def finalAinvnorm (in_norm : Norm) (ctx : EstCtx) (fuel : Nat)
    (s0 : Nat → EstState) : ℚ :=
  ((loopRun (kase1Of in_norm) ctx fuel
      (estRound ctx (fun p => initState (s0 p)))).1 ctx.root).ainvnorm

theorem estRound_ainvnorm (ctx : EstCtx) (s : Nat → EstState) (p : Nat) :
    (estRound ctx s p).ainvnorm = (ctx.est p (s p)).ainvnorm := rfl

theorem loopRun_ainvnorm_nonneg (kase1 : Int) (ctx : EstCtx)
    (hest : ∀ p s, 0 ≤ (ctx.est p s).ainvnorm) (fuel : Nat)
    (s : Nat → EstState) (hs : ∀ p, 0 ≤ (s p).ainvnorm) (p : Nat) :
    0 ≤ ((loopRun kase1 ctx fuel s).1 p).ainvnorm := by
  induction fuel generalizing s with
  | zero => exact hs p
  | succ fuel ih =>
    unfold loopRun
    by_cases h : (s ctx.root).kase = 0
    · simpa [h] using hs p
    · simp only [h, if_false]
      exact ih _ (fun q => hest q _)

/-- Concrete collaborator instance for witnesses: an estimator step that
reports `Ainvnorm = 1` and converges at once (`kase = 0`), identity solves,
root rank 0. -/
def wCtx : EstCtx :=
  ⟨fun _ s => ⟨s.x, s.v, s.isgn, 1, 0, s.isave⟩, id, id, id, id, 0⟩

/-- Concrete ambient per-process state for witnesses. -/
def wS0 : Nat → EstState := fun _ => ⟨[], [], [], 0, 0, []⟩

/-- C2: in every `gecondest` run, each `internal::norm1est` call — the
cold-start call and the final one included — is immediately followed by the
broadcast of the 4-element `isave` and then the broadcast of `kase`
(well-bracketed trace), and after each estimator-plus-broadcast round every
pair of processes holds the identical request code and identical state
vector, so all branch — and leave the `while` loop — identically. -/
theorem gecondest_lockstep (in_norm : Norm) (m : Int) (Anorm : ℚ)
    (anormNan : Bool) (ctx : EstCtx) (fuel : Nat) (s0 : Nat → EstState) :
    goodTrace (gecondest in_norm m Anorm anormNan ctx fuel s0).2 = true
    ∧ ∀ (s : Nat → EstState) (p q : Nat),
        (estRound ctx s p).kase = (estRound ctx s q).kase
        ∧ (estRound ctx s p).isave = (estRound ctx s q).isave := by
  constructor
  · unfold gecondest
    by_cases h1 : ¬(in_norm = Norm.one ∨ in_norm = Norm.inf)
    · simp [h1, goodTrace]
    · by_cases h2 : Anorm < 0 ∨ anormNan = true
      · simp [h1, h2, goodTrace]
      · have h2a : ¬(Anorm < 0) := fun hc => h2 (Or.inl hc)
        have h2b : ¬(anormNan = true) := fun hc => h2 (Or.inr hc)
        by_cases h3 : m ≤ 1
        · simp [h1, h2a, h2b, h3, goodTrace]
        · by_cases h4 : Anorm = 0
          · simp [h1, h2a, h2b, h3, h4, goodTrace]
          · rw [if_neg h1, if_neg h2, if_neg h3, if_neg h4]
            rw [goodTrace_est_chunk]
            exact goodTrace_loopRun _ _ _ _
  · exact fun s p q => ⟨rfl, rfl⟩

/-- C3: on the estimator-loop path (valid norm, `m > 1`, `Anorm > 0`,
non-NaN), `gecondest` returns `(1/Ainvnorm)/Anorm` when the final
`Ainvnorm` is nonzero and `0` when it is zero; and whenever the estimator
only produces non-negative `Ainvnorm`, the returned scalar is
non-negative. -/
theorem gecondest_rcond_formula (in_norm : Norm) (m : Int) (Anorm : ℚ)
    (ctx : EstCtx) (fuel : Nat) (s0 : Nat → EstState)
    (hnorm : in_norm = Norm.one ∨ in_norm = Norm.inf)
    (hm : 1 < m) (hA : 0 < Anorm) :
    (∃ done : Bool,
      (gecondest in_norm m Anorm false ctx fuel s0).1
        = Except.ok
            ((if finalAinvnorm in_norm ctx fuel s0 ≠ 0
              then (1 / finalAinvnorm in_norm ctx fuel s0) / Anorm
              else 0),
             done))
    ∧ ((∀ p s, 0 ≤ (ctx.est p s).ainvnorm) →
        0 ≤ (if finalAinvnorm in_norm ctx fuel s0 ≠ 0
             then (1 / finalAinvnorm in_norm ctx fuel s0) / Anorm
             else 0)) := by
  constructor
  · refine ⟨(loopRun (kase1Of in_norm) ctx fuel
      (estRound ctx (fun p => initState (s0 p)))).2.2, ?_⟩
    unfold gecondest
    have h1 : ¬¬(in_norm = Norm.one ∨ in_norm = Norm.inf) := not_not_intro hnorm
    have h2 : ¬(Anorm < 0 ∨ (false : Bool) = true) := by
      simp [not_lt.mpr hA.le]
    have h3 : ¬(m ≤ 1) := not_le.mpr hm
    have h4 : ¬(Anorm = 0) := hA.ne'
    rw [if_neg h1, if_neg h2, if_neg h3, if_neg h4]
    rfl
  · intro hest
    have hfA : 0 ≤ finalAinvnorm in_norm ctx fuel s0 := by
      unfold finalAinvnorm
      refine loopRun_ainvnorm_nonneg (kase1Of in_norm) ctx hest fuel
        (estRound ctx (fun p => initState (s0 p))) ?_ ctx.root
      intro p
      rw [estRound_ainvnorm]
      exact hest p _
    by_cases hz : finalAinvnorm in_norm ctx fuel s0 ≠ 0
    · rw [if_pos hz]
      exact div_nonneg (div_nonneg zero_le_one hfA) hA.le
    · rw [if_neg hz]

/-- C3 witness: a one-round run with `m = 2`, `Anorm = 2` and an estimator
reporting `Ainvnorm = 1`. -/
theorem gecondest_rcond_formula_witness :
    ((Norm.one = Norm.one ∨ Norm.one = Norm.inf) ∧ (1 : Int) < 2 ∧ (0 : ℚ) < 2)
    ∧ ((∃ done : Bool,
        (gecondest Norm.one 2 2 false wCtx 1 wS0).1
          = Except.ok
              ((if finalAinvnorm Norm.one wCtx 1 wS0 ≠ 0
                then (1 / finalAinvnorm Norm.one wCtx 1 wS0) / 2
                else 0),
               done))
      ∧ ((∀ p s, 0 ≤ (wCtx.est p s).ainvnorm) →
          0 ≤ (if finalAinvnorm Norm.one wCtx 1 wS0 ≠ 0
               then (1 / finalAinvnorm Norm.one wCtx 1 wS0) / 2
               else 0))) :=
  ⟨⟨Or.inl rfl, by norm_num, by norm_num⟩,
    gecondest_rcond_formula Norm.one 2 2 wCtx 1 wS0 (Or.inl rfl)
      (by norm_num) (by norm_num)⟩

/-- C4 counterexample: at `m = 1` with `Anorm = 0`, a valid selector and a
non-NaN norm, `gecondest` returns `1.0` (the `m <= 1` quick return takes
precedence), not `0.0`. -/
theorem gecondest_anorm_zero_cex :
    (gecondest Norm.one 1 0 false wCtx 0 wS0).1 = Except.ok (1, true)
    ∧ ((1 : ℚ), true) ≠ ((0 : ℚ), true) := by
  constructor
  · rfl
  · intro h
    exact absurd (congrArg Prod.fst h) (by norm_num)

/-- C4 (amended): for `m > 1` (so the `m <= 1` quick return does not take
precedence), a valid norm selector and non-NaN `Anorm`, if `Anorm == 0`
then `gecondest` returns exactly `0.0` with an empty event trace — the
iterative estimator loop is never entered. -/
theorem gecondest_anorm_zero (in_norm : Norm) (m : Int)
    (ctx : EstCtx) (fuel : Nat) (s0 : Nat → EstState)
    (hnorm : in_norm = Norm.one ∨ in_norm = Norm.inf) (hm : 1 < m) :
    gecondest in_norm m 0 false ctx fuel s0
      = (Except.ok (0, true), []) := by
  unfold gecondest
  have h1 : ¬¬(in_norm = Norm.one ∨ in_norm = Norm.inf) := not_not_intro hnorm
  have h2 : ¬((0 : ℚ) < 0 ∨ (false : Bool) = true) := by simp
  have h3 : ¬(m ≤ 1) := not_le.mpr hm
  rw [if_neg h1, if_neg h2, if_neg h3, if_pos rfl]

/-- C4 amended witness: `m = 2`, `Anorm = 0` yields `0.0` and no events. -/
theorem gecondest_anorm_zero_witness :
    ((Norm.one = Norm.one ∨ Norm.one = Norm.inf) ∧ (1 : Int) < 2)
    ∧ gecondest Norm.one 2 0 false wCtx 0 wS0 = (Except.ok (0, true), []) :=
  ⟨⟨Or.inl rfl, by norm_num⟩,
    gecondest_anorm_zero Norm.one 2 wCtx 0 wS0 (Or.inl rfl) (by norm_num)⟩

/-- C5: for `m ≤ 1`, a valid norm selector and a non-negative non-NaN
`Anorm`, `gecondest` returns exactly `1.0` with an empty event trace — the
iterative estimator loop is never entered. -/
theorem gecondest_quick_return_one (in_norm : Norm) (m : Int) (Anorm : ℚ)
    (ctx : EstCtx) (fuel : Nat) (s0 : Nat → EstState)
    (hnorm : in_norm = Norm.one ∨ in_norm = Norm.inf)
    (hm : m ≤ 1) (hA : 0 ≤ Anorm) :
    gecondest in_norm m Anorm false ctx fuel s0
      = (Except.ok (1, true), []) := by
  unfold gecondest
  have h1 : ¬¬(in_norm = Norm.one ∨ in_norm = Norm.inf) := not_not_intro hnorm
  have h2 : ¬(Anorm < 0 ∨ (false : Bool) = true) := by
    simp [not_lt.mpr hA]
  rw [if_neg h1, if_neg h2, if_pos hm]

/-- C5 witness: `m = 1` with `Anorm = 5` yields `1.0` and no events. -/
theorem gecondest_quick_return_one_witness :
    ((Norm.inf = Norm.one ∨ Norm.inf = Norm.inf) ∧ (1 : Int) ≤ 1 ∧ (0 : ℚ) ≤ 5)
    ∧ gecondest Norm.inf 1 5 false wCtx 0 wS0 = (Except.ok (1, true), []) :=
  ⟨⟨Or.inr rfl, le_refl 1, by norm_num⟩,
    gecondest_quick_return_one Norm.inf 1 5 wCtx 0 wS0 (Or.inr rfl)
      (le_refl 1) (by norm_num)⟩

/-- C6: for every norm selector (valid or not) and every `Anorm` that is
negative or NaN, `gecondest` fails with a precondition error and returns no
numeric result. -/
theorem gecondest_invalid_anorm (in_norm : Norm) (m : Int) (Anorm : ℚ)
    (anormNan : Bool) (ctx : EstCtx) (fuel : Nat) (s0 : Nat → EstState)
    (h : Anorm < 0 ∨ anormNan = true) :
    ∃ e, gecondest in_norm m Anorm anormNan ctx fuel s0
      = (Except.error e, []) := by
  unfold gecondest
  by_cases h1 : ¬(in_norm = Norm.one ∨ in_norm = Norm.inf)
  · exact ⟨GecondErr.invalidNorm, by simp [h1]⟩
  · exact ⟨GecondErr.invalidAnorm, by simp [h1, h]⟩

/-- C6 witness: `Anorm = -1` fails for a valid selector. -/
theorem gecondest_invalid_anorm_witness :
    ((-1 : ℚ) < 0 ∨ (false : Bool) = true)
    ∧ ∃ e, gecondest Norm.one 3 (-1) false wCtx 0 wS0 = (Except.error e, []) :=
  ⟨Or.inl (by norm_num),
    gecondest_invalid_anorm Norm.one 3 (-1) false wCtx 0 wS0
      (Or.inl (by norm_num))⟩

/-- C7: for every norm selector that is neither the one-norm nor the
infinity-norm, `gecondest` fails with the `invalid norm` precondition error,
for every input and every `Anorm`. -/
theorem gecondest_invalid_norm (in_norm : Norm) (m : Int) (Anorm : ℚ)
    (anormNan : Bool) (ctx : EstCtx) (fuel : Nat) (s0 : Nat → EstState)
    (h1 : in_norm ≠ Norm.one) (h2 : in_norm ≠ Norm.inf) :
    gecondest in_norm m Anorm anormNan ctx fuel s0
      = (Except.error GecondErr.invalidNorm, []) := by
  unfold gecondest
  have h : ¬(in_norm = Norm.one ∨ in_norm = Norm.inf) := by
    intro hc
    cases hc with
    | inl hc => exact h1 hc
    | inr hc => exact h2 hc
  simp [h]

/-- C7 witness: the Frobenius selector fails whatever the other inputs. -/
theorem gecondest_invalid_norm_witness :
    (Norm.fro ≠ Norm.one ∧ Norm.fro ≠ Norm.inf)
    ∧ gecondest Norm.fro 3 7 false wCtx 0 wS0
        = (Except.error GecondErr.invalidNorm, []) :=
  ⟨⟨by decide, by decide⟩,
    gecondest_invalid_norm Norm.fro 3 7 false wCtx 0 wS0
      (by decide) (by decide)⟩

end Slate
